import Mathlib

/-!
Verification of the stealth-deposit encryption, domain-binding, scanning and
claim protocol of the prividium-examples repository (the `private-pay`
examples).  Byte strings are shallowly embedded as `List Nat` (each byte a
natural below 256); `keccak256` and the X25519 sealing primitive are abstract
function parameters, since the properties below hold for every choice of hash
(and the counterexamples do not depend on its values).

The file is organized as definitions first (the embedding of the sources),
then theorems.
-/

namespace PrividiumPay

/-- Byte strings: each entry is one byte; a well-formed byte is `< 256`. -/
abbrev Bytes := List Nat

/-- All entries of the byte string are genuine bytes. -/
def ValidBytes (bs : Bytes) : Prop := ∀ b ∈ bs, b < 256

instance : DecidablePred ValidBytes := fun bs =>
  inferInstanceAs (Decidable (∀ b ∈ bs, b < 256))

/-- Big-endian value of a byte string (how `calldataload`/`uint256` reads words). -/
def bytesToNatBE : Bytes → Nat
  | [] => 0
  | b :: bs => b * 256 ^ bs.length + bytesToNatBE bs

/-- Big-endian encoding of `n` into exactly `k` bytes
(the fixed-width fields of `abi.encodePacked`). -/
def natToBytesBE : Nat → Nat → Bytes
  | 0, _ => []
  | k + 1, n => n / 256 ^ k % 256 :: natToBytesBE k n

/-! ## The example #4 sealing path (`src/crypto.js`, XOR keystream variant)

`encryptRecipient` draws a random 32-byte nonce, computes
`mask = keccak256(publicKey ‖ aad ‖ nonce)` and XORs the plaintext against the
mask byte-by-byte.  The hash is the abstract parameter `H`; the nonce is an
explicit argument (the JS draws it from `crypto.getRandomValues`).  The index
into the 32-byte mask is read with default `0`, mirroring the JS expression
`plaintextBytes[i] ^ maskBytes[i]` where `maskBytes[i]` is `undefined`
(coerced to `0` by `^`) once `i ≥ 32`. -/

/-- The XOR-masked body of the ciphertext (the loop of crypto.js lines 61–64). -/
def xorMask (H : Bytes → Bytes) (publicKey aad nonce plaintext : Bytes) : Bytes :=
  let mask := H (publicKey ++ aad ++ nonce)
  (List.range plaintext.length).map fun i => plaintext.getD i 0 ^^^ mask.getD i 0

/-- Return value of the XOR-keystream `encryptRecipient` (hex fields as bytes). -/
structure EncryptResult where
  ciphertext : Bytes
  nonce : Bytes
deriving DecidableEq

/-- `encryptRecipient` (crypto.js lines 54–71): the published payload is the
nonce followed by the XOR-masked plaintext. -/
def encryptRecipient (H : Bytes → Bytes) (publicKey aad nonce plaintext : Bytes) :
    EncryptResult :=
  { ciphertext := nonce ++ xorMask H publicKey aad nonce plaintext, nonce := nonce }

/-! ## The SharedKMS contract (`contracts/SharedKMS.sol`) -/

inductive KmsError
  | NotAllowed
  | InvalidAad
  | InvalidCiphertext
deriving DecidableEq

/-- Storage of `SharedKMS`; the constructor sets `publicKey = privateKey`,
so one field suffices.  The allowlist is keyed by the 160-bit address. -/
structure KmsState where
  privateKey : Bytes
  allowlist : Nat → Bool

/-- `_parseAAD` (SharedKMS.sol lines 85–98): the AAD must be exactly 116 bytes;
`chainId` is the 32-byte word at offset 0, `consumer` the 20 bytes at offset 32
(the assembly loads a word at 32 and shifts right by 96 bits), `context` the
32 bytes at offset 52 and `depositId` the 32 bytes at offset 84. -/
def parseAAD (aad : Bytes) : Option (Nat × Nat × Bytes × Bytes) :=
  if aad.length = 116 then
    some (bytesToNatBE (aad.take 32),
          bytesToNatBE ((aad.drop 32).take 20),
          (aad.drop 52).take 32,
          (aad.drop 84).take 32)
  else none

/-- `SharedKMS.decrypt` (SharedKMS.sol lines 67–83).  `chainid` is
`block.chainid`, `sender` is `msg.sender`, `context` the consumer-supplied
context word.  The ciphertext must be 64 bytes: a 32-byte nonce followed by the
32-byte masked word; the plaintext is `masked XOR keccak256(privateKey ‖ aad ‖ nonce)`. -/
def SharedKMS.decrypt (H : Bytes → Bytes) (st : KmsState) (chainid sender : Nat)
    (context : Bytes) (aad ciphertext : Bytes) : Except KmsError Bytes :=
  if st.allowlist sender = true then
    match parseAAD aad with
    | none => .error .InvalidAad
    | some (chainId, consumer, aadContext, _) =>
      if chainId ≠ chainid ∨ consumer ≠ sender ∨ aadContext ≠ context then
        .error .InvalidAad
      else if ciphertext.length ≠ 64 then .error .InvalidCiphertext
      else
        let nonce := ciphertext.take 32
        let masked := (ciphertext.drop 32).take 32
        let mask := H (st.privateKey ++ aad ++ nonce)
        .ok ((List.range 32).map fun i => masked.getD i 0 ^^^ mask.getD i 0)
  else .error .NotAllowed

/-! ## The PrivatePay contract (`contracts/PrivatePay.sol`) -/

inductive PayError
  | AlreadyUsed
  | InvalidRecipient
  | TransferFailed
  | Kms (e : KmsError)
  | AbiDecode
deriving DecidableEq

/-- Storage of `PrivatePay`: the set of consumed `depositId`s (bytes32 words)
and the `receivedTotal` mapping. -/
structure PayState where
  used : List Nat
  receivedTotal : Nat → Nat

/-- `abi.decode(plaintext, (address))`: the 32-byte word is read big-endian and
the decoder reverts unless the upper 12 bytes are zero (solc ≥ 0.8 validates
the decoded address). -/
def abiDecodeAddress (bs : Bytes) : Except PayError Nat :=
  if bs.length = 32 then
    let v := bytesToNatBE bs
    if v < 2 ^ 160 then .ok v else .error .AbiDecode
  else .error .AbiDecode

/-- `PrivatePay.onL1Deposit` (PrivatePay.sol lines 23–35).  `self` is the
PrivatePay contract address (the `msg.sender` seen by the KMS), `context` its
`CONTEXT` constant (`keccak256("private-pay:v1")`, opaque here), `transferOk`
abstracts the low-level ether transfer `recipient.call{value: msg.value}("")`.
A revert is an `error`; the caller's state is unchanged on error because the
new state only exists in the `ok` payload. -/
def onL1Deposit (H : Bytes → Bytes) (kms : KmsState) (chainid self : Nat)
    (context : Bytes) (st : PayState) (msgValue : Nat) (depositId : Nat)
    (aad ciphertext : Bytes) (transferOk : Nat → Bool) : Except PayError PayState :=
  if st.used.contains depositId then .error .AlreadyUsed
  else
    match SharedKMS.decrypt H kms chainid self context aad ciphertext with
    | .error e => .error (.Kms e)
    | .ok plaintext =>
      match abiDecodeAddress plaintext with
      | .error e => .error e
      | .ok recipient =>
        if recipient = 0 then .error .InvalidRecipient
        else if transferOk recipient = true then
          .ok { used := depositId :: st.used,
                receivedTotal := fun a =>
                  if a = recipient then st.receivedTotal a + msgValue
                  else st.receivedTotal a }
        else .error .TransferFailed

/-- The recipient `onL1Deposit` derives from a deposit: KMS decryption followed
by `abi.decode(·, (address))`. -/
def decodedRecipient (H : Bytes → Bytes) (kms : KmsState) (chainid self : Nat)
    (context aad ciphertext : Bytes) : Except PayError Nat :=
  match SharedKMS.decrypt H kms chainid self context aad ciphertext with
  | .error e => .error (.Kms e)
  | .ok plaintext => abiDecodeAddress plaintext

/-- The successfully decoded recipient (0 when decoding fails; only used to
state theorems about successful calls, where it is the decoded address). -/
def recipientOf (H : Bytes → Bytes) (kms : KmsState) (chainid self : Nat)
    (context aad ciphertext : Bytes) : Nat :=
  match decodedRecipient H kms chainid self context aad ciphertext with
  | .ok r => r
  | .error _ => 0

/-! ## AAD builders and sender-side payload generation -/

/-- AAD construction of example #4 (`generatePayload` in its App.jsx):
`encodePacked(uint256 chainId, address payAddr, bytes32 context, bytes32 depositId)`. -/
def buildAad4 (chainId payAddr : Nat) (context depositId : Bytes) : Bytes :=
  natToBytesBE 32 chainId ++ natToBytesBE 20 payAddr ++ context ++ depositId

/-- AAD construction of example #5, the PrivatePay Inbox (`buildAad` in its
App.jsx): `encodePacked(uint256 chainId, address inboxAddr, bytes32 depositId,
bytes32 contextHash)` — note the last two fields come in the opposite order
from `buildAad4`. -/
def buildAadInbox (chainId inboxAddr : Nat) (depositId contextHash : Bytes) : Bytes :=
  natToBytesBE 32 chainId ++ natToBytesBE 20 inboxAddr ++ depositId ++ contextHash

/-- Deposit payload displayed by example #4 (depositId, aad, ciphertext). -/
structure Payload4 where
  depositId : Bytes
  aad : Bytes
  ciphertext : Bytes
deriving DecidableEq

/-- The pure core of example #4's `generatePayload`: the plaintext is
`encodeAbiParameters([address], [recipient])`, a single 32-byte word, sealed by
the XOR-keystream `encryptRecipient` under the packed AAD.  The random
`depositId` and `nonce` are explicit arguments. -/
def generatePayload4 (H : Bytes → Bytes) (chainId payAddr : Nat)
    (context publicKey : Bytes) (recipient : Nat) (depositId nonce : Bytes) : Payload4 :=
  let aad := buildAad4 chainId payAddr context depositId
  let plaintext := natToBytesBE 32 recipient
  { depositId := depositId, aad := aad,
    ciphertext := (encryptRecipient H publicKey aad nonce plaintext).ciphertext }

/-! ## Example #5: the PrivatePay Inbox (App.jsx of example #5)

Its companion `crypto.js` (X25519 `generateKeyPair`, `encryptPayload`,
`decryptPayload`, `bundleCiphertext`) is not among the provided sources, so the
envelope codec and the sealing/opening primitive are modelled from the spec
(§4.2–4.3): the codec concatenates the fixed-width fields in a fixed order; the
seal/open primitive is an abstract parameter. -/

/-- Modelled from the spec: `bundle(depositId, ephemeralPublicKey, nonce, sealed)`
of the Envelope Codec — example #5's `bundleCiphertext` is not under `src/`.
Fixed field order, the variable-length ciphertext occupying the remainder. -/
def bundleCiphertext (depositId ephemeralPub nonce sealed : Bytes) : Bytes :=
  depositId ++ ephemeralPub ++ nonce ++ sealed

/-- Modelled from the spec: `unbundle` of the Envelope Codec, inverse of
`bundleCiphertext` for fixed widths `pubLen` and `nonceLen`; fails when the
buffer is shorter than the fixed-width prefix. -/
def unbundleCiphertext (pubLen nonceLen : Nat) (b : Bytes) :
    Option (Bytes × Bytes × Bytes × Bytes) :=
  if 32 + pubLen + nonceLen ≤ b.length then
    some (b.take 32,
          (b.drop 32).take pubLen,
          ((b.drop 32).drop pubLen).take nonceLen,
          ((b.drop 32).drop pubLen).drop nonceLen)
  else none

/-- What the abstract sealing primitive (`encryptPayload`) returns. -/
structure SealOut where
  ephemeralPub : Bytes
  nonce : Bytes
  sealed : Bytes
deriving DecidableEq

/-- The fixed-layout plaintext of example #5: recipient address (20 bytes)
followed by the 32-byte claim secret (`encodePacked(['address','bytes32'])`). -/
def inboxPlaintext (recipient : Nat) (secret : Bytes) : Bytes :=
  natToBytesBE 20 recipient ++ secret

/-- Deposit payload produced by example #5's `generatePayload`. -/
structure Payload5 where
  depositId : Bytes
  secret : Bytes
  commitment : Bytes
  ciphertext : Bytes
  aad : Bytes

/-- The pure core of example #5's `generatePayload` (App.jsx lines 439–480):
draws `depositId` and `secret` (explicit arguments here), publishes
`commitment = keccak256(secret)`, seals `address ‖ secret` under the inbox AAD
with the abstract `enc` (= `encryptPayload`, not under `src/`), and bundles the
result.  `H` is keccak256. -/
def generatePayloadInbox (H : Bytes → Bytes) (enc : Bytes → Bytes → Bytes → SealOut)
    (chainId inboxAddr : Nat) (contextHash pubKey : Bytes) (recipient : Nat)
    (depositId secret : Bytes) : Payload5 :=
  let commitment := H secret
  let plaintext := inboxPlaintext recipient secret
  let aad := buildAadInbox chainId inboxAddr depositId contextHash
  let s := enc pubKey plaintext aad
  { depositId := depositId, secret := secret, commitment := commitment,
    ciphertext := bundleCiphertext depositId s.ephemeralPub s.nonce s.sealed,
    aad := aad }

/-- The ledger-visible commitment data of one deposit record. -/
structure ClaimRecord where
  commitment : Bytes
  claimed : Bool

/-- Modelled from the spec: `validateClaim(record, revealedSecret)` — true iff
`record.commitment == Hash(revealedSecret)` and the record is unclaimed (the
inbox contract's claim check is not under `src/`). -/
def validateClaim (H : Bytes → Bytes) (record : ClaimRecord) (revealed : Bytes) : Bool :=
  (record.commitment == H revealed) && !record.claimed

/-! ## The deposit scanner (`loadDeposits` in example #5's App.jsx)

`loadDeposits` reads the total deposit count, requests the most recent
`min(total, 20)` headers (`getRecentDeposits(limit, total - limit)`), and for
every header that is not claimed fetches its ciphertext; empty ciphertexts are
skipped, everything else is handed to `decryptPayload`, whose failures are
absorbed by the `try/catch`.  A success of at least 52 bytes whose first
20 bytes equal the caller's own address becomes a match.

The inbox contract backing `getRecentDeposits`/`getCiphertext` is not under
`src/`; the record store is modelled from the spec as the list of headers in
deposit order plus a fetch function from index to ciphertext bytes.
`decryptPayload` (also not under `src/`) is the abstract parameter `dec`,
returning the plaintext and the bundled depositId on success and `none` on
failure (the thrown exception). -/

/-- One normalized deposit header as `loadDeposits` keeps it. -/
structure DepositHeader where
  index : Nat
  amount : Nat
  createdAt : Nat
  claimed : Bool
  commitment : Bytes
deriving DecidableEq

/-- One decrypted match as pushed by the scanning loop. -/
structure ScanMatch where
  index : Nat
  amount : Nat
  createdAt : Nat
  commitment : Bytes
  secret : Bytes
  depositId : Bytes
deriving DecidableEq

/-- Scanner state: the indices on which `decryptPayload` has been invoked, and
the accumulated matches. -/
structure ScanResult where
  attempts : List Nat
  found : List ScanMatch
deriving DecidableEq

/-- Modelled from the spec: the window `loadDeposits` actually requests —
`getRecentDeposits(limit, offset)` with `limit = min(total, 20)` and
`offset = total - limit`, i.e. the last `min(total, 20)` records. -/
def recentWindow (records : List DepositHeader) : List DepositHeader :=
  let limit := min records.length 20
  (records.drop (records.length - limit)).take limit

/-- One iteration of the scanning loop (App.jsx lines 663–696). -/
def scanStep (own : Bytes) (dec : Bytes → Option (Bytes × Bytes))
    (fetchCt : Nat → Bytes) (acc : ScanResult) (h : DepositHeader) : ScanResult :=
  if h.claimed then acc
  else
    let ct := fetchCt h.index
    if ct.length = 0 then acc
    else
      let acc1 : ScanResult := { acc with attempts := acc.attempts ++ [h.index] }
      match dec ct with
      | none => acc1
      | some (pt, depId) =>
        if pt.length < 52 then acc1
        else if pt.take 20 = own then
          { acc1 with found := acc1.found ++
              [{ index := h.index, amount := h.amount, createdAt := h.createdAt,
                 commitment := h.commitment, secret := (pt.drop 20).take 32,
                 depositId := depId }] }
        else acc1

/-- The scanning core of `loadDeposits`: fold the loop over the recent window. -/
def loadDeposits (own : Bytes) (dec : Bytes → Option (Bytes × Bytes))
    (fetchCt : Nat → Bytes) (records : List DepositHeader) : ScanResult :=
  (recentWindow records).foldl (scanStep own dec fetchCt) ⟨[], []⟩

/-- The per-record acceptance criterion the scanning loop implements: unclaimed,
non-empty ciphertext, successful decryption, plaintext of at least 52 bytes
addressed to the caller. -/
def matchOf (own : Bytes) (dec : Bytes → Option (Bytes × Bytes))
    (fetchCt : Nat → Bytes) (h : DepositHeader) : Option ScanMatch :=
  if h.claimed then none
  else
    let ct := fetchCt h.index
    if ct.length = 0 then none
    else
      match dec ct with
      | none => none
      | some (pt, depId) =>
        if pt.length < 52 then none
        else if pt.take 20 = own then
          some { index := h.index, amount := h.amount, createdAt := h.createdAt,
                 commitment := h.commitment, secret := (pt.drop 20).take 32,
                 depositId := depId }
        else none

/-- Records on which the loop invokes `decryptPayload`: unclaimed with a
non-empty fetched ciphertext. -/
def attemptsOf (fetchCt : Nat → Bytes) (h : DepositHeader) : Bool :=
  !h.claimed && !((fetchCt h.index).length == 0)

/-! ## Concrete instances used by witnesses and counterexamples -/

/-- A concrete stand-in hash with keccak's output size (32 bytes). -/
def H0 : Bytes → Bytes := fun _ => List.replicate 32 0

def pub0 : Bytes := List.replicate 33 4

/-- KMS storing `pub0` (constructor sets `publicKey = privateKey`) and
allowlisting consumer address 5. -/
def kms0 : KmsState := { privateKey := pub0, allowlist := fun a => a == 5 }

def ctx0 : Bytes := List.replicate 32 3

def dep0 : Bytes := List.replicate 32 1

/-- AAD for chain 270, consumer 5, context `ctx0`, depositId `dep0`. -/
def aad0 : Bytes := buildAad4 270 5 ctx0 dep0

def nonce0 : Bytes := List.replicate 32 2

/-- A 32-byte plaintext decoding to address 9. -/
def pt0 : Bytes := natToBytesBE 32 9

def ct0 : Bytes := (encryptRecipient H0 pub0 aad0 nonce0 pt0).ciphertext

def pt40 : Bytes := List.replicate 40 7

def st0 : PayState := { used := [], receivedTotal := fun _ => 0 }

/-- The state after a successful deposit of 100 wei with id 7 to recipient 9. -/
def payOk : PayState := { used := [7], receivedTotal := fun a => if a = 9 then 100 else 0 }

def own0 : Bytes := List.replicate 20 5

/-- Twenty-one unclaimed records, indices 0 through 20. -/
def recs21 : List DepositHeader := (List.range 21).map fun i =>
  { index := i, amount := 0, createdAt := 0, claimed := false, commitment := [] }

def fetch1 : Nat → Bytes := fun _ => List.replicate 64 1

def decNone : Bytes → Option (Bytes × Bytes) := fun _ => none

/-- A decryption outcome that parses to the caller's own address with a
52-byte plaintext. -/
def decOwn : Bytes → Option (Bytes × Bytes) := fun _ =>
  some (own0 ++ List.replicate 32 6, List.replicate 32 7)

/-! ## Byte-string arithmetic -/

@[simp] theorem length_natToBytesBE (k n : Nat) : (natToBytesBE k n).length = k := by
  induction k generalizing n with
  | zero => rfl
  | succ k ih => simp [natToBytesBE, ih]

theorem natToBytesBE_valid (k n : Nat) : ValidBytes (natToBytesBE k n) := by
  induction k generalizing n with
  | zero => intro b hb; simp [natToBytesBE] at hb
  | succ k ih =>
    intro b hb
    simp only [natToBytesBE, List.mem_cons] at hb
    rcases hb with h | h
    · exact h ▸ Nat.mod_lt _ (by norm_num)
    · exact ih n b h

theorem bytesToNatBE_lt (bs : Bytes) (h : ValidBytes bs) :
    bytesToNatBE bs < 256 ^ bs.length := by
  induction bs with
  | nil => simp [bytesToNatBE]
  | cons b bs ih =>
    have hb : b < 256 := h b (List.mem_cons_self b bs)
    have hbs : bytesToNatBE bs < 256 ^ bs.length :=
      ih (fun x hx => h x (List.mem_cons_of_mem b hx))
    have : b * 256 ^ bs.length + bytesToNatBE bs < (b + 1) * 256 ^ bs.length := by
      calc b * 256 ^ bs.length + bytesToNatBE bs
          < b * 256 ^ bs.length + 256 ^ bs.length := by omega
        _ = (b + 1) * 256 ^ bs.length := by ring
    calc bytesToNatBE (b :: bs) < (b + 1) * 256 ^ bs.length := this
      _ ≤ 256 * 256 ^ bs.length := Nat.mul_le_mul_right _ hb
      _ = 256 ^ (bs.length + 1) := by ring

theorem natToBytesBE_mod (k n : Nat) :
    natToBytesBE k (n % 256 ^ k) = natToBytesBE k n := by
  induction k generalizing n with
  | zero => rfl
  | succ k ih =>
    simp only [natToBytesBE]
    congr 1
    · rw [Nat.pow_succ, Nat.mod_mul_right_div_self, Nat.mod_mod_of_dvd _ (dvd_refl 256)]
    · rw [show natToBytesBE k (n % 256 ^ (k + 1)) =
            natToBytesBE k (n % 256 ^ (k + 1) % 256 ^ k) from (ih _).symm,
        Nat.mod_mod_of_dvd _ ⟨256, by rw [Nat.pow_succ]⟩, ih]

theorem bytesToNatBE_natToBytesBE (k n : Nat) :
    bytesToNatBE (natToBytesBE k n) = n % 256 ^ k := by
  induction k generalizing n with
  | zero => simp [natToBytesBE, bytesToNatBE, Nat.mod_one]
  | succ k ih =>
    simp only [natToBytesBE, bytesToNatBE, length_natToBytesBE, ih]
    rw [Nat.pow_succ, Nat.mod_mul]
    ring

theorem natToBytesBE_bytesToNatBE (bs : Bytes) (h : ValidBytes bs) :
    natToBytesBE bs.length (bytesToNatBE bs) = bs := by
  induction bs with
  | nil => rfl
  | cons b bs ih =>
    have hb : b < 256 := h b (List.mem_cons_self b bs)
    have hv : ValidBytes bs := fun x hx => h x (List.mem_cons_of_mem b hx)
    have hbs : bytesToNatBE bs < 256 ^ bs.length := bytesToNatBE_lt bs hv
    simp only [List.length_cons, natToBytesBE, bytesToNatBE]
    congr 1
    · rw [Nat.mul_comm, Nat.mul_add_div (Nat.pos_pow_of_pos _ (by norm_num)),
        Nat.div_eq_of_lt hbs, Nat.add_zero, Nat.mod_eq_of_lt hb]
    · rw [← natToBytesBE_mod, Nat.add_comm, Nat.add_mul_mod_self_right,
        Nat.mod_eq_of_lt hbs, ih hv]

/-- Fixed-width big-endian readings are injective on genuine byte strings. -/
theorem bytesToNatBE_inj {xs ys : Bytes} (hlen : xs.length = ys.length)
    (hx : ValidBytes xs) (hy : ValidBytes ys)
    (h : bytesToNatBE xs = bytesToNatBE ys) : xs = ys := by
  calc xs = natToBytesBE xs.length (bytesToNatBE xs) := (natToBytesBE_bytesToNatBE xs hx).symm
    _ = natToBytesBE ys.length (bytesToNatBE ys) := by rw [hlen, h]
    _ = ys := natToBytesBE_bytesToNatBE ys hy

theorem valid_take (l : Bytes) (n : Nat) (h : ValidBytes l) : ValidBytes (l.take n) :=
  fun b hb => h b (List.mem_of_mem_take hb)

theorem valid_drop (l : Bytes) (n : Nat) (h : ValidBytes l) : ValidBytes (l.drop n) :=
  fun b hb => h b (List.mem_of_mem_drop hb)

theorem valid_set (l : Bytes) (i v : Nat) (hl : ValidBytes l) (hv : v < 256) :
    ValidBytes (l.set i v) := by
  intro b hb
  rcases List.mem_or_eq_of_mem_set hb with h | h
  · exact hl b h
  · exact h ▸ hv

/-- A window `[a, a+b)` of a list is unaffected by overwriting a byte outside it. -/
theorem slice_set_outside (l : Bytes) (i v a b : Nat) (h : i < a ∨ a + b ≤ i) :
    ((l.set i v).drop a).take b = (l.drop a).take b := by
  apply List.ext_getElem
  · simp
  · intro j h1 h2
    have hj : j < b ∧ a + j < l.length := by
      simp [Nat.lt_min] at h1; omega
    simp only [List.getElem_take, List.getElem_drop]
    rw [List.getElem_set_ne (by omega)]

theorem take_set_outside (l : Bytes) (i v b : Nat) (h : b ≤ i) :
    (l.set i v).take b = l.take b := by
  have h2 := slice_set_outside l i v 0 b (Or.inr (by omega))
  simpa using h2

/-- Reading a window `[a, a+b)` at the overwritten position yields the new byte. -/
theorem slice_set_inside (l : Bytes) (i v a b : Nat)
    (ha : a ≤ i) (hb : i < a + b) (hl : i < l.length) :
    (((l.set i v).drop a).take b).getD (i - a) 0 = v := by
  have hlen : i - a < (((l.set i v).drop a).take b).length := by simp; omega
  rw [List.getD_eq_getElem _ _ hlen]
  simp only [List.getElem_take, List.getElem_drop]
  have hai : a + (i - a) = i := by omega
  simp only [hai]
  rw [List.getElem_set_self]

/-- Reading a window `[a, a+b)` of the original list at an in-range position. -/
theorem slice_getD (l : Bytes) (a b i : Nat)
    (ha : a ≤ i) (hb : i < a + b) (hl : i < l.length) :
    ((l.drop a).take b).getD (i - a) 0 = l.getD i 0 := by
  have hlen : i - a < ((l.drop a).take b).length := by simp; omega
  rw [List.getD_eq_getElem _ _ hlen, List.getD_eq_getElem _ _ hl]
  simp only [List.getElem_take, List.getElem_drop]
  congr 1
  omega

/-- Decomposing the four fixed-width AAD fields out of their concatenation. -/
theorem append4_slices (A B C D : Bytes)
    (hA : A.length = 32) (hB : B.length = 20) (hC : C.length = 32) :
    (A ++ B ++ C ++ D).take 32 = A
    ∧ ((A ++ B ++ C ++ D).drop 32).take 20 = B
    ∧ ((A ++ B ++ C ++ D).drop 52).take 32 = C
    ∧ (A ++ B ++ C ++ D).drop 84 = D := by
  have h32 : (A ++ B ++ C ++ D).drop 32 = B ++ C ++ D := by
    rw [show A ++ B ++ C ++ D = A ++ (B ++ C ++ D) by simp, ← hA, List.drop_left]
  have h52 : (A ++ B ++ C ++ D).drop 52 = C ++ D := by
    rw [show (52 : Nat) = 32 + 20 by norm_num, ← List.drop_drop, h32,
      show B ++ C ++ D = B ++ (C ++ D) by simp, ← hB, List.drop_left]
  have h84 : (A ++ B ++ C ++ D).drop 84 = D := by
    rw [show (84 : Nat) = 52 + 32 by norm_num, ← List.drop_drop, h52, ← hC, List.drop_left]
  refine ⟨?_, ?_, ?_, h84⟩
  · rw [show A ++ B ++ C ++ D = A ++ (B ++ C ++ D) by simp, ← hA, List.take_left]
  · rw [h32, show B ++ C ++ D = B ++ (C ++ D) by simp, ← hB, List.take_left]
  · rw [h52, ← hC, List.take_left]

/-! ## Facts about the XOR sealing path and `SharedKMS.decrypt` -/

@[simp] theorem length_xorMask (H : Bytes → Bytes) (publicKey aad nonce plaintext : Bytes) :
    (xorMask H publicKey aad nonce plaintext).length = plaintext.length := by
  simp [xorMask]

theorem xorMask_getD (H : Bytes → Bytes) (publicKey aad nonce plaintext : Bytes)
    (i : Nat) (hi : i < plaintext.length) :
    (xorMask H publicKey aad nonce plaintext).getD i 0 =
      plaintext.getD i 0 ^^^ (H (publicKey ++ aad ++ nonce)).getD i 0 := by
  have hlen : i < (xorMask H publicKey aad nonce plaintext).length := by simpa using hi
  rw [List.getD_eq_getElem _ _ hlen]
  simp [xorMask, List.getElem_range]

theorem encrypt_ciphertext_take (H : Bytes → Bytes) (publicKey aad nonce plaintext : Bytes)
    (hnonce : nonce.length = 32) :
    (encryptRecipient H publicKey aad nonce plaintext).ciphertext.take 32 = nonce := by
  simp only [encryptRecipient]
  rw [← hnonce, List.take_left]

theorem encrypt_ciphertext_drop (H : Bytes → Bytes) (publicKey aad nonce plaintext : Bytes)
    (hnonce : nonce.length = 32) :
    (encryptRecipient H publicKey aad nonce plaintext).ciphertext.drop 32 =
      xorMask H publicKey aad nonce plaintext := by
  simp only [encryptRecipient]
  rw [← hnonce, List.drop_left]

theorem encrypt_ciphertext_length (H : Bytes → Bytes)
    (publicKey aad nonce plaintext : Bytes) :
    (encryptRecipient H publicKey aad nonce plaintext).ciphertext.length =
      nonce.length + plaintext.length := by
  simp [encryptRecipient]

/-- Evaluation of `SharedKMS.decrypt` when the allowlist, AAD checks and the
ciphertext length check all pass. -/
theorem decrypt_eval (H : Bytes → Bytes) (kms : KmsState) (chainid sender : Nat)
    (context aad ct : Bytes)
    (hallow : kms.allowlist sender = true) (hlen : aad.length = 116)
    (hchain : bytesToNatBE (aad.take 32) = chainid)
    (hsender : bytesToNatBE ((aad.drop 32).take 20) = sender)
    (hctx : (aad.drop 52).take 32 = context) (hct : ct.length = 64) :
    SharedKMS.decrypt H kms chainid sender context aad ct =
      Except.ok ((List.range 32).map fun i =>
        ((ct.drop 32).take 32).getD i 0 ^^^
          (H (kms.privateKey ++ aad ++ ct.take 32)).getD i 0) := by
  simp [SharedKMS.decrypt, parseAAD, hallow, hlen, hchain, hsender, hctx, hct]

/-- Evaluation of `SharedKMS.decrypt` when one of the three checked AAD fields
does not match: the call reverts with `InvalidAad`. -/
theorem decrypt_invalid_of_mismatch (H : Bytes → Bytes) (kms : KmsState)
    (chainid sender : Nat) (context aad ct : Bytes)
    (hallow : kms.allowlist sender = true) (hlen : aad.length = 116)
    (hbad : bytesToNatBE (aad.take 32) ≠ chainid
      ∨ bytesToNatBE ((aad.drop 32).take 20) ≠ sender
      ∨ (aad.drop 52).take 32 ≠ context) :
    SharedKMS.decrypt H kms chainid sender context aad ct =
      Except.error KmsError.InvalidAad := by
  simp only [SharedKMS.decrypt, parseAAD, hlen, if_true, hallow]
  rw [if_pos hbad]

/-- C1: round-trip of the XOR-keystream seal against `SharedKMS.decrypt`.  For a
32-byte plaintext, a 116-byte AAD whose chainId, consumer and context fields
match the decrypting consumer, and the KMS storing the public key used to seal
as its private key, decryption returns the original plaintext (for every hash). -/
theorem roundtrip_xor_sharedKms (H : Bytes → Bytes)
    (kms : KmsState) (chainid sender : Nat)
    (context publicKey aad nonce plaintext : Bytes)
    (hallow : kms.allowlist sender = true)
    (hpriv : kms.privateKey = publicKey)
    (hlen : aad.length = 116)
    (hchain : bytesToNatBE (aad.take 32) = chainid)
    (hsender : bytesToNatBE ((aad.drop 32).take 20) = sender)
    (hctx : (aad.drop 52).take 32 = context)
    (hnonce : nonce.length = 32) (hpt : plaintext.length = 32) :
    SharedKMS.decrypt H kms chainid sender context aad
      (encryptRecipient H publicKey aad nonce plaintext).ciphertext =
      Except.ok plaintext := by
  have hct : (encryptRecipient H publicKey aad nonce plaintext).ciphertext.length = 64 := by
    rw [encrypt_ciphertext_length, hnonce, hpt]
  rw [decrypt_eval H kms chainid sender context aad _ hallow hlen hchain hsender hctx hct,
    encrypt_ciphertext_drop H publicKey aad nonce plaintext hnonce,
    encrypt_ciphertext_take H publicKey aad nonce plaintext hnonce]
  have hxlen : (xorMask H publicKey aad nonce plaintext).length = 32 := by
    rw [length_xorMask, hpt]
  rw [show (xorMask H publicKey aad nonce plaintext).take 32
      = xorMask H publicKey aad nonce plaintext by rw [← hxlen, List.take_length]]
  rw [hpriv]
  congr 1
  apply List.ext_getElem
  · simpa using hpt.symm
  · intro j h1 h2
    have hjp : j < plaintext.length := by rw [hpt]; simpa using h1
    have hget : ((List.range 32).map fun i =>
        (xorMask H publicKey aad nonce plaintext).getD i 0 ^^^
          (H (publicKey ++ aad ++ nonce)).getD i 0)[j] =
        (xorMask H publicKey aad nonce plaintext).getD j 0 ^^^
          (H (publicKey ++ aad ++ nonce)).getD j 0 := by
      simp [List.getElem_range]
    rw [hget, xorMask_getD H publicKey aad nonce plaintext j hjp,
      Nat.xor_cancel_right, List.getD_eq_getElem _ _ hjp]

/-- C6: in the XOR-keystream `encryptRecipient`, every plaintext byte at index
32 or beyond is emitted unchanged: the keccak mask has only 32 bytes and the JS
expression `plaintextBytes[i] ^ maskBytes[i]` XORs against `undefined` coerced
to 0.  Stated about the masked body of the payload (the bytes following the
32-byte nonce). -/
theorem xor_keystream_tail_in_clear (H : Bytes → Bytes)
    (publicKey aad nonce plaintext : Bytes)
    (hH : (H (publicKey ++ aad ++ nonce)).length = 32)
    (i : Nat) (h32 : 32 ≤ i) (hi : i < plaintext.length) :
    ((encryptRecipient H publicKey aad nonce plaintext).ciphertext.drop nonce.length).getD
        i 0 = plaintext.getD i 0 := by
  have hdrop : (encryptRecipient H publicKey aad nonce plaintext).ciphertext.drop
      nonce.length = xorMask H publicKey aad nonce plaintext := by
    simp only [encryptRecipient]
    rw [List.drop_left]
  have hm : (H (publicKey ++ aad ++ nonce)).getD i 0 = 0 :=
    List.getD_eq_default _ _ (by rw [hH]; exact h32)
  rw [hdrop, xorMask_getD H publicKey aad nonce plaintext i hi, hm, Nat.xor_zero]

/-- C3 (amended): flipping one AAD byte below offset 84 (the chainId, consumer
or context field) makes `SharedKMS.decrypt` revert with `InvalidAad`; flipping
a byte at offset 84 or later (the depositId field, which the contract parses
but never compares) leaves decryption succeeding — it returns a re-masked
plaintext instead of failing. -/
theorem aad_binding_xor (H : Bytes → Bytes) (kms : KmsState) (chainid sender : Nat)
    (context publicKey aad nonce plaintext : Bytes)
    (hallow : kms.allowlist sender = true)
    (hlen : aad.length = 116) (hvalid : ValidBytes aad)
    (hchain : bytesToNatBE (aad.take 32) = chainid)
    (hsender : bytesToNatBE ((aad.drop 32).take 20) = sender)
    (hctx : (aad.drop 52).take 32 = context)
    (hnonce : nonce.length = 32) (hpt : plaintext.length = 32)
    (i v : Nat) (hi : i < 116) (hv : v < 256) (hne : v ≠ aad.getD i 0) :
    (i < 84 →
      SharedKMS.decrypt H kms chainid sender context (aad.set i v)
        (encryptRecipient H publicKey aad nonce plaintext).ciphertext
        = Except.error KmsError.InvalidAad)
    ∧ (84 ≤ i →
      ∃ garbled, SharedKMS.decrypt H kms chainid sender context (aad.set i v)
        (encryptRecipient H publicKey aad nonce plaintext).ciphertext
        = Except.ok garbled) := by
  have hil : i < aad.length := by omega
  have hlen2 : (aad.set i v).length = 116 := by simp [hlen]
  have hvalid2 : ValidBytes (aad.set i v) := valid_set _ _ _ hvalid hv
  have hct : (encryptRecipient H publicKey aad nonce plaintext).ciphertext.length = 64 := by
    rw [encrypt_ciphertext_length, hnonce, hpt]
  have hdiff : ∀ a b : Nat, a ≤ i → i < a + b →
      ((aad.set i v).drop a).take b ≠ (aad.drop a).take b := by
    intro a b ha hb heq
    have e1 := slice_set_inside aad i v a b ha hb hil
    have e2 := slice_getD aad a b i ha hb hil
    rw [heq] at e1
    exact hne (e1.symm.trans e2)
  constructor
  · intro h84
    apply decrypt_invalid_of_mismatch H kms chainid sender context (aad.set i v) _
      hallow hlen2
    by_cases h1 : i < 32
    · left
      intro hcEq
      have hEq : ((aad.set i v).drop 0).take 32 = (aad.drop 0).take 32 := by
        apply bytesToNatBE_inj
        · simp [hlen2, hlen]
        · exact valid_take _ _ (valid_drop _ _ hvalid2)
        · exact valid_take _ _ (valid_drop _ _ hvalid)
        · simpa [List.drop_zero] using hcEq.trans hchain.symm
      exact hdiff 0 32 (by omega) (by omega) hEq
    · by_cases h2 : i < 52
      · right; left
        intro hsEq
        have hEq : ((aad.set i v).drop 32).take 20 = (aad.drop 32).take 20 := by
          apply bytesToNatBE_inj
          · simp [hlen2, hlen]
          · exact valid_take _ _ (valid_drop _ _ hvalid2)
          · exact valid_take _ _ (valid_drop _ _ hvalid)
          · exact hsEq.trans hsender.symm
        exact hdiff 32 20 (by omega) (by omega) hEq
      · right; right
        intro hxEq
        exact hdiff 52 32 (by omega) (by omega) (hxEq.trans hctx.symm)
  · intro h84
    refine ⟨_, decrypt_eval H kms chainid sender context (aad.set i v) _
      hallow hlen2 ?_ ?_ ?_ hct⟩
    · rw [take_set_outside aad i v 32 (by omega)]; exact hchain
    · rw [slice_set_outside aad i v 32 20 (Or.inr (by omega))]; exact hsender
    · rw [slice_set_outside aad i v 52 32 (Or.inr (by omega))]; exact hctx

/-! ## AAD packing -/

theorem parseAAD_append (A B C D : Bytes) (hA : A.length = 32) (hB : B.length = 20)
    (hC : C.length = 32) (hD : D.length = 32) :
    parseAAD (A ++ B ++ C ++ D) = some (bytesToNatBE A, bytesToNatBE B, C, D) := by
  obtain ⟨t1, t2, t3, t4⟩ := append4_slices A B C D hA hB hC
  have hlen : (A ++ B ++ C ++ D).length = 116 := by simp [hA, hB, hC, hD]
  have t4' : ((A ++ B ++ C ++ D).drop 84).take 32 = D := by
    rw [t4, ← hD, List.take_length]
  unfold parseAAD
  rw [if_pos hlen, t1, t2, t3, t4']

/-- C7 (amended): both AAD builders emit exactly 116 bytes with chainId at
offset 0 and the consumer address at offset 32, and `_parseAAD` recovers the
packed words.  The example #4 builder places the context at offset 52 and the
depositId at offset 84, matching `_parseAAD`'s field names; the example #5
inbox builder packs those two fields in the opposite order, so `_parseAAD`
reads its depositId out of the context slot and its context hash out of the
depositId slot. -/
theorem aad_packing_both (chainId payAddr : Nat) (dep ctx : Bytes)
    (hc : chainId < 256 ^ 32) (ha : payAddr < 256 ^ 20)
    (hdep : dep.length = 32) (hctx : ctx.length = 32) :
    (buildAad4 chainId payAddr ctx dep).length = 116
    ∧ parseAAD (buildAad4 chainId payAddr ctx dep) = some (chainId, payAddr, ctx, dep)
    ∧ (buildAadInbox chainId payAddr dep ctx).length = 116
    ∧ parseAAD (buildAadInbox chainId payAddr dep ctx) = some (chainId, payAddr, dep, ctx) := by
  have hcv : bytesToNatBE (natToBytesBE 32 chainId) = chainId := by
    rw [bytesToNatBE_natToBytesBE, Nat.mod_eq_of_lt hc]
  have hav : bytesToNatBE (natToBytesBE 20 payAddr) = payAddr := by
    rw [bytesToNatBE_natToBytesBE, Nat.mod_eq_of_lt ha]
  refine ⟨by simp [buildAad4, hdep, hctx], ?_, by simp [buildAadInbox, hdep, hctx], ?_⟩
  · rw [buildAad4, parseAAD_append _ _ _ _ (by simp) (by simp) hctx hdep, hcv, hav]
  · rw [buildAadInbox, parseAAD_append _ _ _ _ (by simp) (by simp) hdep hctx, hcv, hav]

/-! ## Envelope layout -/

/-- The spec-modelled example #5 codec round-trips: unbundling a bundle
recovers the four fields. -/
theorem unbundle_bundle (depositId ephemeralPub nonce sealed : Bytes)
    (pubLen nonceLen : Nat) (hdep : depositId.length = 32)
    (heph : ephemeralPub.length = pubLen) (hnon : nonce.length = nonceLen) :
    unbundleCiphertext pubLen nonceLen
        (bundleCiphertext depositId ephemeralPub nonce sealed)
      = some (depositId, ephemeralPub, nonce, sealed) := by
  have h1 : (depositId ++ ephemeralPub ++ nonce ++ sealed).drop 32
      = ephemeralPub ++ nonce ++ sealed := by
    rw [show depositId ++ ephemeralPub ++ nonce ++ sealed
        = depositId ++ (ephemeralPub ++ nonce ++ sealed) by simp, ← hdep, List.drop_left]
  have ht1 : (depositId ++ ephemeralPub ++ nonce ++ sealed).take 32 = depositId := by
    rw [show depositId ++ ephemeralPub ++ nonce ++ sealed
        = depositId ++ (ephemeralPub ++ nonce ++ sealed) by simp, ← hdep, List.take_left]
  have h2 : (ephemeralPub ++ nonce ++ sealed).take pubLen = ephemeralPub := by
    rw [show ephemeralPub ++ nonce ++ sealed = ephemeralPub ++ (nonce ++ sealed) by simp,
      ← heph, List.take_left]
  have h3 : (ephemeralPub ++ nonce ++ sealed).drop pubLen = nonce ++ sealed := by
    rw [show ephemeralPub ++ nonce ++ sealed = ephemeralPub ++ (nonce ++ sealed) by simp,
      ← heph, List.drop_left]
  have h4 : (nonce ++ sealed).take nonceLen = nonce := by rw [← hnon, List.take_left]
  have h5 : (nonce ++ sealed).drop nonceLen = sealed := by rw [← hnon, List.drop_left]
  have hbl : 32 + pubLen + nonceLen
      ≤ (depositId ++ ephemeralPub ++ nonce ++ sealed).length := by
    simp [hdep, heph, hnon]
    omega
  rw [unbundleCiphertext, bundleCiphertext] at *
  rw [if_pos hbl, h1, h2, h3, h4, h5, ht1]

/-- C4 (amended): the envelope produced by the cited XOR sealing path of
example #4 is `nonce (32B) ++ maskedCiphertext` — it contains neither the
depositId (which travels as a separate call argument) nor an ephemeral public
key.  The spec's claimed layout `depositId ‖ ephemeralPub ‖ nonce ‖ sealed`
holds for the example #5 inbox codec, modelled from the spec, where it
round-trips. -/
theorem envelope_bundle_layout (H : Bytes → Bytes)
    (publicKey aad nonce plaintext : Bytes)
    (depositId ephemeralPub nonce5 sealed : Bytes) (pubLen nonceLen : Nat)
    (hnonce : nonce.length = 32) (hdep : depositId.length = 32)
    (heph : ephemeralPub.length = pubLen) (hnon : nonce5.length = nonceLen) :
    (encryptRecipient H publicKey aad nonce plaintext).ciphertext
        = nonce ++ xorMask H publicKey aad nonce plaintext
    ∧ (encryptRecipient H publicKey aad nonce plaintext).ciphertext.take 32 = nonce
    ∧ (encryptRecipient H publicKey aad nonce plaintext).ciphertext.drop 32
        = xorMask H publicKey aad nonce plaintext
    ∧ unbundleCiphertext pubLen nonceLen
        (bundleCiphertext depositId ephemeralPub nonce5 sealed)
        = some (depositId, ephemeralPub, nonce5, sealed) :=
  ⟨rfl, encrypt_ciphertext_take H publicKey aad nonce plaintext hnonce,
    encrypt_ciphertext_drop H publicKey aad nonce plaintext hnonce,
    unbundle_bundle depositId ephemeralPub nonce5 sealed pubLen nonceLen hdep heph hnon⟩

/-- C9: the commitment published by example #5's `generatePayload` is the hash
of the 32-byte secret embedded at offset 20 of the sealed plaintext, and the
(spec-modelled) claim validation of an unclaimed record storing that commitment
accepts a revealed secret exactly when it hashes to the commitment. -/
theorem commitment_binds_secret (H : Bytes → Bytes)
    (enc : Bytes → Bytes → Bytes → SealOut) (chainId inboxAddr : Nat)
    (contextHash pubKey : Bytes) (recipient : Nat) (depositId secret s : Bytes) :
    (generatePayloadInbox H enc chainId inboxAddr contextHash pubKey recipient
        depositId secret).commitment = H ((inboxPlaintext recipient secret).drop 20)
    ∧ (validateClaim H
        { commitment := (generatePayloadInbox H enc chainId inboxAddr contextHash pubKey
            recipient depositId secret).commitment, claimed := false } s = true
        ↔ H s = H secret) := by
  have hdrop : (inboxPlaintext recipient secret).drop 20 = secret := by
    rw [inboxPlaintext]
    have h20 : (natToBytesBE 20 recipient).length = 20 := by simp
    calc (natToBytesBE 20 recipient ++ secret).drop 20
        = (natToBytesBE 20 recipient ++ secret).drop (natToBytesBE 20 recipient).length := by
          rw [h20]
      _ = secret := List.drop_left _ _
  constructor
  · rw [hdrop]
    rfl
  · show validateClaim H { commitment := H secret, claimed := false } s = true ↔ H s = H secret
    simp [validateClaim]
    exact eq_comm

/-! ## State effects of `onL1Deposit` -/

/-- C8: a `depositId` is consumed at most once.  A successful `onL1Deposit`
requires the id to be fresh and marks it used, and every later call with the
same id reverts with `AlreadyUsed` whatever its other arguments. -/
theorem depositId_single_use (H : Bytes → Bytes) (kms : KmsState)
    (chainid self : Nat) (context : Bytes) (st : PayState) (msgValue : Nat)
    (depositId : Nat) (aad ciphertext : Bytes) (transferOk : Nat → Bool)
    (st2 : PayState)
    (h : onL1Deposit H kms chainid self context st msgValue depositId aad ciphertext
        transferOk = Except.ok st2) :
    st.used.contains depositId = false
    ∧ st2.used.contains depositId = true
    ∧ ∀ (msgValue2 : Nat) (aad2 ciphertext2 : Bytes) (transferOk2 : Nat → Bool),
        onL1Deposit H kms chainid self context st2 msgValue2 depositId aad2 ciphertext2
          transferOk2 = Except.error PayError.AlreadyUsed := by
  by_cases hu : st.used.contains depositId = true
  · unfold onL1Deposit at h
    rw [if_pos hu] at h
    simp at h
  · have hused : st2.used = depositId :: st.used := by
      unfold onL1Deposit at h
      rw [if_neg hu] at h
      split at h
      · simp at h
      · split at h
        · simp at h
        · split at h
          · simp at h
          · split at h
            · obtain he := Except.ok.inj h
              subst he
              rfl
            · simp at h
    refine ⟨by simpa using hu, by rw [hused]; simp, ?_⟩
    intro msgValue2 aad2 ciphertext2 transferOk2
    simp [onL1Deposit, hused]

/-- C10: a successful `onL1Deposit` performs the complete update: the id was
fresh and becomes used, the transfer of the full `msg.value` to the decoded
(nonzero) recipient succeeded, and `receivedTotal` grows by exactly `msg.value`
at the recipient and nowhere else.  A failing call returns an error and no
state at all, so `used`, `receivedTotal` and balances are untouched — the
revert semantics of the embedding. -/
theorem onL1Deposit_effects (H : Bytes → Bytes) (kms : KmsState)
    (chainid self : Nat) (context : Bytes) (st : PayState) (msgValue : Nat)
    (depositId : Nat) (aad ciphertext : Bytes) (transferOk : Nat → Bool)
    (st2 : PayState)
    (h : onL1Deposit H kms chainid self context st msgValue depositId aad ciphertext
        transferOk = Except.ok st2) :
    decodedRecipient H kms chainid self context aad ciphertext
        = Except.ok (recipientOf H kms chainid self context aad ciphertext)
    ∧ recipientOf H kms chainid self context aad ciphertext ≠ 0
    ∧ transferOk (recipientOf H kms chainid self context aad ciphertext) = true
    ∧ st.used.contains depositId = false
    ∧ st2.used = depositId :: st.used
    ∧ st2.receivedTotal (recipientOf H kms chainid self context aad ciphertext)
        = st.receivedTotal (recipientOf H kms chainid self context aad ciphertext) + msgValue
    ∧ ∀ a, a ≠ recipientOf H kms chainid self context aad ciphertext →
        st2.receivedTotal a = st.receivedTotal a := by
  by_cases hu : st.used.contains depositId = true
  · unfold onL1Deposit at h
    rw [if_pos hu] at h
    simp at h
  · unfold onL1Deposit at h
    rw [if_neg hu] at h
    split at h
    · simp at h
    · next pt hd =>
      split at h
      · simp at h
      · next r ha =>
        split at h
        · simp at h
        · next hr =>
          split at h
          · next ht =>
            obtain he := Except.ok.inj h
            subst he
            have hdec : decodedRecipient H kms chainid self context aad ciphertext
                = Except.ok r := by
              simp only [decodedRecipient, hd, ha]
            have hrec : recipientOf H kms chainid self context aad ciphertext = r := by
              simp only [recipientOf, hdec]
            rw [hrec, hdec]
            refine ⟨rfl, hr, ht, by simpa using hu, rfl, by simp, ?_⟩
            intro a hne
            simp [if_neg hne]
          · simp at h

/-! ## Scanner claims -/

theorem scanStep_foldl (own : Bytes) (dec : Bytes → Option (Bytes × Bytes))
    (fetchCt : Nat → Bytes) (l : List DepositHeader) (acc : ScanResult) :
    l.foldl (scanStep own dec fetchCt) acc =
      ⟨acc.attempts ++ (l.filter (attemptsOf fetchCt)).map DepositHeader.index,
       acc.found ++ l.filterMap (matchOf own dec fetchCt)⟩ := by
  induction l generalizing acc with
  | nil => simp
  | cons h t ih =>
    rw [List.foldl_cons, ih]
    rcases acc with ⟨atts, ms⟩
    by_cases hc : h.claimed
    · simp [scanStep, matchOf, attemptsOf, List.filter_cons, List.filterMap_cons, hc]
    · by_cases hct : (fetchCt h.index).length = 0
      · simp [scanStep, matchOf, attemptsOf, List.filter_cons, List.filterMap_cons, hc, hct]
      · rcases hdec : dec (fetchCt h.index) with _ | ⟨pt, depId⟩
        · simp [scanStep, matchOf, attemptsOf, List.filter_cons, List.filterMap_cons,
            hc, hct, hdec]
        · by_cases hlen : pt.length < 52
          · simp [scanStep, matchOf, attemptsOf, List.filter_cons, List.filterMap_cons,
              hc, hct, hdec, hlen]
          · by_cases hown : pt.take 20 = own
            · simp [scanStep, matchOf, attemptsOf, List.filter_cons, List.filterMap_cons,
                hc, hct, hdec, hlen, hown]
            · simp [scanStep, matchOf, attemptsOf, List.filter_cons, List.filterMap_cons,
                hc, hct, hdec, hlen, hown]

/-- C2 (amended): the scanning loop of `loadDeposits` invokes `decryptPayload`
exactly on the unclaimed records of the most recent `min(total, 20)` records
whose fetched ciphertext is non-empty; unclaimed records outside that window,
or with an empty ciphertext, are never attempted. -/
theorem scan_attempts_characterization (own : Bytes)
    (dec : Bytes → Option (Bytes × Bytes)) (fetchCt : Nat → Bytes)
    (records : List DepositHeader) :
    (loadDeposits own dec fetchCt records).attempts =
      ((recentWindow records).filter (attemptsOf fetchCt)).map DepositHeader.index := by
  rw [loadDeposits, scanStep_foldl]
  simp

/-- C5 (amended): within the most recent `min(total, 20)` records,
`loadDeposits` returns exactly those unclaimed records with non-empty
ciphertext whose decryption succeeds with a plaintext of at least 52 bytes
whose first 20 bytes equal the caller's own address; decryption failures,
short plaintexts and foreign recipients are silently discarded, and claimed
records are never returned. -/
theorem scan_matches_characterization (own : Bytes)
    (dec : Bytes → Option (Bytes × Bytes)) (fetchCt : Nat → Bytes)
    (records : List DepositHeader) :
    (loadDeposits own dec fetchCt records).found =
      (recentWindow records).filterMap (matchOf own dec fetchCt) := by
  rw [loadDeposits, scanStep_foldl]
  simp

/-! ## Witnesses and counterexamples at concrete inputs -/

/-- Witness for C1 at a concrete key, AAD, nonce and plaintext. -/
theorem roundtrip_xor_sharedKms_witness :
    SharedKMS.decrypt H0 kms0 270 5 ctx0 aad0 ct0 = Except.ok pt0 :=
  roundtrip_xor_sharedKms H0 kms0 270 5 ctx0 pub0 aad0 nonce0 pt0
    rfl rfl (by decide) (by decide) (by decide) (by decide) (by decide) (by decide)

/-- Counterexample to C3 as stated: flipping AAD byte 84 (the first depositId
byte, 1 → 9) between seal and open does NOT make the open fail — `decrypt`
still succeeds. -/
theorem xor_open_succeeds_on_tampered_aad :
    (SharedKMS.decrypt H0 kms0 270 5 ctx0 (aad0.set 84 9) ct0).isOk = true
    ∧ aad0.getD 84 0 ≠ 9 := by decide

/-- Witness for the amended C3: flipping AAD byte 0 (inside the chainId field)
makes the open fail with `InvalidAad`. -/
theorem aad_binding_xor_witness :
    SharedKMS.decrypt H0 kms0 270 5 ctx0 (aad0.set 0 9) ct0
      = Except.error KmsError.InvalidAad :=
  (aad_binding_xor H0 kms0 270 5 ctx0 pub0 aad0 nonce0 pt0
    rfl (by decide) (by decide) (by decide) (by decide) (by decide) (by decide) (by decide)
    0 9 (by decide) (by decide) (by decide)).1 (by decide)

/-- Counterexample to C4 as stated: the bundle emitted by the cited sealing
path does not begin with the 32-byte depositId (it begins with the nonce). -/
theorem bundle4_lacks_depositId :
    (generatePayload4 H0 270 5 ctx0 pub0 9 dep0 nonce0).ciphertext.take 32
      ≠ (generatePayload4 H0 270 5 ctx0 pub0 9 dep0 nonce0).depositId := by decide

/-- Witness for the amended C4 at concrete field values. -/
theorem envelope_bundle_layout_witness :
    (encryptRecipient H0 pub0 aad0 nonce0 pt0).ciphertext.take 32 = nonce0
    ∧ unbundleCiphertext 33 24 (bundleCiphertext dep0 (List.replicate 33 8)
        (List.replicate 24 9) (List.replicate 48 10))
      = some (dep0, List.replicate 33 8, List.replicate 24 9, List.replicate 48 10) := by
  have h := envelope_bundle_layout H0 pub0 aad0 nonce0 pt0 dep0
    (List.replicate 33 8) (List.replicate 24 9) (List.replicate 48 10) 33 24
    (by decide) (by decide) (by decide) (by decide)
  exact ⟨h.2.1, h.2.2.2⟩

/-- Witness for C6: byte 35 of a 40-byte plaintext is emitted in the clear. -/
theorem xor_keystream_tail_in_clear_witness :
    ((encryptRecipient H0 pub0 aad0 nonce0 pt40).ciphertext.drop nonce0.length).getD 35 0
      = pt40.getD 35 0 :=
  xor_keystream_tail_in_clear H0 pub0 aad0 nonce0 pt40 (by decide) 35 (by decide) (by decide)

/-- Counterexample to C7 as stated: `_parseAAD` applied to the example #5 inbox
builder's output recovers the depositId from the context slot (offset 52), not
the context. -/
theorem inbox_aad_slots_swapped :
    (parseAAD (buildAadInbox 270 5 dep0 ctx0)).map (fun t => t.2.2.1) = some dep0
    ∧ dep0 ≠ ctx0 := by decide

/-- Witness for the amended C7 at concrete values. -/
theorem aad_packing_both_witness :
    parseAAD (buildAad4 270 5 ctx0 dep0) = some (270, 5, ctx0, dep0)
    ∧ parseAAD (buildAadInbox 270 5 dep0 ctx0) = some (270, 5, dep0, ctx0) := by
  have h := aad_packing_both 270 5 dep0 ctx0 (by decide) (by decide) (by decide) (by decide)
  exact ⟨h.2.1, h.2.2.2⟩

/-- Witness for C8: after a successful deposit with id 7, a second submission
with id 7 reverts with `AlreadyUsed`. -/
theorem depositId_single_use_witness :
    onL1Deposit H0 kms0 270 5 ctx0 payOk 0 7 aad0 ct0 (fun _ => true)
      = Except.error PayError.AlreadyUsed :=
  (depositId_single_use H0 kms0 270 5 ctx0 st0 100 7 aad0 ct0 (fun _ => true)
    payOk rfl).2.2 0 aad0 ct0 (fun _ => true)

/-- Witness for C10: the successful deposit of 100 wei with id 7 marks the id
used, credits exactly recipient 9 with 100, and leaves other addresses at 0. -/
theorem onL1Deposit_effects_witness :
    payOk.used = 7 :: st0.used
    ∧ payOk.receivedTotal 9 = st0.receivedTotal 9 + 100
    ∧ payOk.receivedTotal 3 = st0.receivedTotal 3 := by
  have hmain := onL1Deposit_effects H0 kms0 270 5 ctx0 st0 100 7 aad0 ct0 (fun _ => true)
    payOk rfl
  exact ⟨hmain.2.2.2.2.1, hmain.2.2.2.2.2.1, hmain.2.2.2.2.2.2 3 (by decide)⟩

/-- Counterexample to C2 as stated: with 21 stored records, all unclaimed and
with non-empty ciphertexts, the scan never attempts decryption of record 0 —
the loop only examines the most recent 20 records. -/
theorem scan_skips_old_unclaimed :
    (recs21.map DepositHeader.index).contains 0 = true
    ∧ (recs21.all fun h => !h.claimed) = true
    ∧ (loadDeposits own0 decNone fetch1 recs21).attempts.contains 0 = false := by decide

/-- Counterexample to C5 as stated: record 0 is unclaimed and its ciphertext
decrypts to a 52-byte plaintext addressed to the caller, yet the scan does not
return it (it lies outside the 20-record window). -/
theorem scan_misses_addressed_match :
    ((loadDeposits own0 decOwn fetch1 recs21).found.all fun m => m.index != 0) = true
    ∧ (loadDeposits own0 decOwn fetch1 recs21).found.length = 20
    ∧ (recs21.all fun h => !h.claimed) = true
    ∧ (recs21.map DepositHeader.index).contains 0 = true
    ∧ ((decOwn (fetch1 0)).map fun p => (p.1.take 20 == own0) && (52 ≤ p.1.length : Bool))
        = some true := by decide

end PrividiumPay
